import Mathlib

/-!
Shallow embedding of the nydus-snapshotter conversion and upload core
(`pkg/backend/oss.go`, `pkg/converter`), with theorems checking the
natural-language specification against the code.
-/

namespace OSS

/-- Mirrors `oss.FileChunk` as used by `splitFileByPartSize`
(`Number int`, `Offset int64`, `Size int64`). -/
structure FileChunk where
  number : Int
  offset : Int
  size : Int
  deriving Repr, DecidableEq

/-- Mirrors the constant `multipartChunkSize = 500 * 1024 * 1024` in oss.go. -/
def multipartChunkSize : Int := 500 * 1024 * 1024

/-- Embeds `splitFileByPartSize(blobSize, chunkSize int64)` from oss.go.
Go integer division and modulus on int64 truncate toward zero, which is
`Int.tdiv` / `Int.tmod` in Lean.  The loop `for i := 0; i < chunkN; i++`
appends one full-size chunk per iteration (no iterations when
`chunkN <= 0`), and a trailing partial chunk is appended when
`blobSize % chunkSize > 0`. -/
def splitFileByPartSize (blobSize chunkSize : Int) : Except String (List FileChunk) :=
  if chunkSize ≤ 0 then
    .error "chunkSize invalid"
  else
    let chunkN := blobSize.tdiv chunkSize
    if 10000 ≤ chunkN then
      .error "Too many parts, please increase part size"
    else
      let base : List FileChunk :=
        (List.range chunkN.toNat).map
          (fun (i : Nat) =>
            { number := (i : Int) + 1, offset := (i : Int) * chunkSize, size := chunkSize })
      if 0 < blobSize.tmod chunkSize then
        .ok (base ++ [{ number := (base.length : Int) + 1,
                        offset := (base.length : Int) * chunkSize,
                        size := blobSize.tmod chunkSize }])
      else
        .ok base

/-- Closed form of the list built by `splitFileByPartSize` on nonnegative
inputs: `s / c` full chunks, then one remainder chunk when `c` does not
divide `s`. -/
def splitChunksNat (s c : Nat) : List FileChunk :=
  let base : List FileChunk :=
    (List.range (s / c)).map
      (fun (i : Nat) =>
        { number := (i : Int) + 1, offset := (i : Int) * (c : Int), size := (c : Int) })
  if 0 < s % c then
    base ++ [{ number := (base.length : Int) + 1,
               offset := (base.length : Int) * (c : Int),
               size := ((s % c : Nat) : Int) }]
  else base

/-- The map part of `splitChunksNat`, for stating its explicit form. -/
def fullChunksNat (s c : Nat) : List FileChunk :=
  (List.range (s / c)).map
    (fun (i : Nat) =>
      { number := (i : Int) + 1, offset := (i : Int) * (c : Int), size := (c : Int) })

/- Events observed by the OSS object-store collaborator during one `push`
attempt, in call order. -/
inductive OSSEvent where
  | isObjectExist
  | initiate (sid : Nat)
  | uploadPart (sid : Nat) (partNumber : Int)
  | abort (sid : Nat)
  | complete (sid : Nat) (partNumbers : List Int)
  deriving Repr, DecidableEq

/-- Environment for one `push` attempt: the outcomes the collaborators
(content store and OSS bucket) would produce, plus the order in which the
concurrent per-chunk upload goroutines happen to finish (`schedule`, listing
chunk part numbers in completion order). -/
structure PushEnv where
  existsResult : Except String Bool
  blobSize : Int
  initiateResult : Except String Nat
  uploadResult : Int → Except String Unit
  schedule : List Int
  completeResult : Except String Unit

/-- Underlying message of the first failed upload in schedule order, used to
mirror `errgroup.Wait` returning the first goroutine error. -/
def firstUploadErr (env : PushEnv) : Option String :=
  (env.schedule.find? (fun n => !(env.uploadResult n).isOk)).map
    (fun n =>
      match env.uploadResult n with
      | .error e => e
      | .ok _ => "")

/-- Embeds `(*OSSBackend).push` from oss.go as a sequential trace model:
check existence, split into chunks, initiate a multipart session, run all
chunk uploads (events listed in goroutine completion order), then either
abort (some upload failed) or complete with the parts collected from
`partsChan` — which receives parts in completion order, i.e. `env.schedule`.
Returns the collaborator-call trace and the error result (`none` = nil). -/
def pushModel (env : PushEnv) : List OSSEvent × Option String :=
  match env.existsResult with
  | .error e => ([.isObjectExist], some ("check object existence: " ++ e))
  | .ok true => ([.isObjectExist], none)
  | .ok false =>
    match splitFileByPartSize env.blobSize multipartChunkSize with
    | .error e => ([.isObjectExist], some ("split blob by part num: " ++ e))
    | .ok _chunks =>
      match env.initiateResult with
      | .error e => ([.isObjectExist], some ("initiate multipart upload: " ++ e))
      | .ok sid =>
        let uploads := env.schedule.map (fun n => OSSEvent.uploadPart sid n)
        match firstUploadErr env with
        | some e =>
          ([.isObjectExist, .initiate sid] ++ uploads ++ [.abort sid],
            some ("uploading parts failed: " ++ e))
        | none =>
          match env.completeResult with
          | .error e =>
            ([.isObjectExist, .initiate sid] ++ uploads ++ [.complete sid env.schedule],
              some ("complete multipart upload: " ++ e))
          | .ok _ =>
            ([.isObjectExist, .initiate sid] ++ uploads ++ [.complete sid env.schedule],
              none)

/-- The session id an event is addressed to, if any. -/
def eventSid : OSSEvent → Option Nat
  | .isObjectExist => none
  | .initiate sid => some sid
  | .uploadPart sid _ => some sid
  | .abort sid => some sid
  | .complete sid _ => some sid

/-- Recognizes a complete-multipart-upload call. -/
def isCompleteEvent : OSSEvent → Bool
  | .complete _ _ => true
  | _ => false

/-- A multipart session is not left dangling: it was aborted, or the
completion call was made and the attempt returned success. -/
def sessionFinalized (events : List OSSEvent) (err : Option String) (sid : Nat) : Prop :=
  OSSEvent.abort sid ∈ events ∨ (err = none ∧ ∃ parts, OSSEvent.complete sid parts ∈ events)

/-- `time.Second` in nanoseconds, the unit of Go `time.Duration`. -/
def timeSecond : Nat := 1000000000

/-- Embeds the retry loop of `(*OSSBackend).Push`: run `push`; on error,
return it if the context is already done (checked only there), otherwise if
`backoff >= 8*time.Second` return the error, else sleep `backoff`, double it
and loop.  Returns the per-attempt collaborator traces, the start time of
each attempt (nanoseconds since the call began), and the final result.
Structural recursion on `fuel`; starting from `backoff = time.Second` the
loop body runs at most 4 times (backoff 1s, 2s, 4s then 8s ≥ cap), so the
`fuel = 0` branch is unreachable from `pushRetry` below. -/
def pushRetryAux (envs : Nat → PushEnv) (ctxDone : Nat → Bool) :
    Nat → Nat → Nat → Nat → List (List OSSEvent) × List Nat × Option String
  | 0, _, _, _ => ([], [], none)
  | fuel + 1, k, backoff, now =>
    let r := pushModel (envs k)
    match r.2 with
    | none => ([r.1], [now], none)
    | some e =>
      if ctxDone k then
        ([r.1], [now], some e)
      else if 8 * timeSecond ≤ backoff then
        ([r.1], [now], some e)
      else
        let rest := pushRetryAux envs ctxDone fuel (k + 1) (backoff * 2) (now + backoff)
        (r.1 :: rest.1, now :: rest.2.1, rest.2.2)

/-- `Push` = the retry loop started with `backoff = time.Second` at time 0. -/
def pushRetry (envs : Nat → PushEnv) (ctxDone : Nat → Bool) :
    List (List OSSEvent) × List Nat × Option String :=
  pushRetryAux envs ctxDone 4 0 timeSecond 0

/-- Two full chunks, uploads finishing in the order part 2 then part 1. -/
def envTwoChunks : PushEnv :=
  { existsResult := .ok false, blobSize := 2 * multipartChunkSize,
    initiateResult := .ok 7, uploadResult := fun _ => .ok (),
    schedule := [2, 1], completeResult := .ok () }

/-- Two full chunks, uploads finishing in part-number order. -/
def envTwoChunksSorted : PushEnv :=
  { existsResult := .ok false, blobSize := 2 * multipartChunkSize,
    initiateResult := .ok 7, uploadResult := fun _ => .ok (),
    schedule := [1, 2], completeResult := .ok () }

/-- One chunk; every upload succeeds but the completion call fails. -/
def envOneChunkCompleteErr : PushEnv :=
  { existsResult := .ok false, blobSize := multipartChunkSize,
    initiateResult := .ok 5, uploadResult := fun _ => .ok (),
    schedule := [1], completeResult := .error "server 500" }

/-- One chunk; everything succeeds. -/
def envOneChunkOk : PushEnv :=
  { existsResult := .ok false, blobSize := multipartChunkSize,
    initiateResult := .ok 5, uploadResult := fun _ => .ok (),
    schedule := [1], completeResult := .ok () }

/-- The existence check itself fails with a transient transport error. -/
def envCheckFail : PushEnv :=
  { existsResult := .error "boom", blobSize := 0,
    initiateResult := .ok 0, uploadResult := fun _ => .ok (),
    schedule := [], completeResult := .ok () }

/-- Copy of `envCheckFail` kept separate for the cancellation theorems. -/
def envCheckFailCancel : PushEnv :=
  { existsResult := .error "boom", blobSize := 0,
    initiateResult := .ok 0, uploadResult := fun _ => .ok (),
    schedule := [], completeResult := .ok () }

/-- A blob so large that the 10000-part guard in the splitter trips. -/
def envSplitReject : PushEnv :=
  { existsResult := .ok false, blobSize := 10000 * multipartChunkSize,
    initiateResult := .ok 1, uploadResult := fun _ => .ok (),
    schedule := [], completeResult := .ok () }

end OSS

namespace Conv

/-- Parsed fields of a tar header that `unpackBootstrapFromNydusTar`
consults: entry name and declared entry size (`hdr.Name`, `hdr.Size`). -/
structure TarHeader where
  name : String
  size : Int
  deriving Repr, DecidableEq

/-- `bootstrapNameInTar` from the converter package. -/
def bootstrapNameInTar : String := "image.boot"

/-- Errors of the locator, one per `errors.Wrap` site in
`unpackBootstrapFromNydusTar` plus the final not-found error and a fuel
sentinel for the Lean embedding of the unbounded `for` loop. -/
inductive UnpackErr where
  | header
  | copy
  | notFound
  | fuel
  deriving Repr, DecidableEq

/-- The 512 bytes at offset `pos`, when fully inside the blob; `none` models
a failed or short `ReadAt` (negative offset or EOF inside the header block),
which makes `tar.Reader.Next` fail. -/
def blockAt (blob : List Nat) (pos : Int) : Option (List Nat) :=
  if 0 ≤ pos ∧ pos + 512 ≤ (blob.length : Int) then
    some ((blob.drop pos.toNat).take 512)
  else
    none

/-- Models `io.CopyN(target, reader, n)` with the seek reader positioned at
`off`: with `n ≤ 0` nothing is copied and no error is returned; otherwise the
copy succeeds exactly when the `n` bytes at `off` lie inside the blob. -/
def copyN (blob : List Nat) (off : Int) (n : Int) : Except UnpackErr (List Nat) :=
  if n ≤ 0 then .ok []
  else if 0 ≤ off ∧ off + n ≤ (blob.length : Int) then
    .ok ((blob.drop off.toNat).take n.toNat)
  else
    .error .copy

/-- Modelled from the spec: `newSeekReader`, the seek reader
`unpackBootstrapFromNydusTar` scans with, is repository code missing from
src/ (only its call site is present).  Following the locator algorithm in
the spec ("step backward in fixed tar-header-block increments ... seek
there, and copy exactly that many bytes"), it is a position-tracking
sequential reader over the random-access source: `Seek(off, io.SeekCurrent)`
adds `off` to the current position and returns the new position,
`Seek(off, io.SeekStart)` sets the position to `off`, and reads consume
bytes from the current position, advancing it. -/
def seekReaderSeekCurrent (pos offset : Int) : Int := pos + offset

/-- One iteration of the reverse-scan loop of `unpackBootstrapFromNydusTar`,
embedded over the seek reader's state: `cur` as in the source, `pos` the seek
reader's cursor (`Seek(cur-512, io.SeekCurrent)` adds its offset to `pos`;
a successful `tar.Reader.Next` on a plain header consumes the 512-byte
header block, advancing `pos` by 512).  `parse` abstracts the Go standard
library tar-header parser (`tar.Reader.Next` applied to the block): `none`
is a parse failure, which the source returns as a wrapped error. -/
def unpackLoop (parse : List Nat → Option TarHeader) (blob : List Nat) :
    Nat → Int → Int → Except UnpackErr (List Nat)
  | 0, _, _ => .error .fuel
  | fuel + 1, cur, pos =>
    let cur2 := seekReaderSeekCurrent pos (cur - 512)
    match blockAt blob cur2 with
    | none => .error .header
    | some block =>
      match parse block with
      | none => .error .header
      | some hdr =>
        if hdr.name = bootstrapNameInTar then
          copyN blob (cur2 - hdr.size) hdr.size
        else if cur2 = hdr.size then
          .error .notFound
        else
          unpackLoop parse blob fuel cur2 (cur2 + 512)

/-- Embeds `unpackBootstrapFromNydusTar(ctx, ra, target)`: reverse scan from
`cur = ra.Size()` with the seek reader starting at position 0.  On success
the returned list is the byte sequence written to `target`. -/
def unpackBootstrapFromNydusTar (parse : List Nat → Option TarHeader) (blob : List Nat) :
    Except UnpackErr (List Nat) :=
  unpackLoop parse blob (blob.length + 1) (blob.length : Int) 0

/-- Outcomes the collaborators of `Convert`'s close action can produce:
`unpackResult` from `unpackOciTar` in the background goroutine,
`fifoResult` from `fifo.OpenFifo`, `toolResult` from the `tool.Convert`
builder subprocess, `copyResult` from `io.Copy(dest, blobRc)` when the
builder succeeded (`none` everywhere = success). -/
structure ConvertEnv where
  unpackResult : Option String
  fifoResult : Option String
  toolResult : Option String
  copyResult : Option String

/-- What a call of the sink's `Close` does. -/
inductive CloseOutcome where
  | returns (err : Option String)
  | blocksForever
  deriving Repr, DecidableEq

/-- Embeds the close action `Convert` installs via `newWriteCloser`
(types.go): it first waits on `<-unpackDone`; the unpack goroutine sends on
`unpackDone` only when `unpackOciTar` succeeded — on unpack failure it calls
`pr.CloseWithError` and returns without sending, so the receive blocks
forever.  Otherwise: open the fifo (error returned wrapped), then copy the
builder's blob stream to `dest`; a builder failure closes the fifo, failing
the copy, and a copy failure is returned wrapped as `pack nydus tar`.
`writeCloser.Close` returns the action's error, else `pw.Close()`s result
(nil). -/
def convertCloseOutcome (env : ConvertEnv) : CloseOutcome :=
  match env.unpackResult with
  | some _ => .blocksForever
  | none =>
    match env.fifoResult with
    | some e => .returns (some ("create fifo file: " ++ e))
    | none =>
      match env.toolResult with
      | some _ => .returns (some "pack nydus tar")
      | none =>
        match env.copyResult with
        | some e => .returns (some ("pack nydus tar: " ++ e))
        | none => .returns none

/-- Models `content.ReaderAt.ReadAt(p, off)` over a byte blob: no bytes on a
negative offset, otherwise the bytes from `off` up to the requested length,
truncated at end of blob (a short read, which Go reports with an error). -/
def readAt (blob : List Nat) (off : Int) (l : Nat) : List Nat :=
  if off < 0 then []
  else (blob.drop off.toNat).take l

/-- Embeds `readerAtToReader.Read(p)` (utils.go) with `l = len(p)`: it
returns `ReadAt(p, pos)`s bytes and then advances `pos` by `len(p)` —
the requested length, not the number of bytes actually read. -/
def readerAtToReaderRead (blob : List Nat) (pos : Int) (l : Nat) : List Nat × Int :=
  (readAt blob pos l, pos + (l : Int))

/-- A sequence of `Read` calls with the given buffer lengths, returning the
delivered byte chunks and the final cursor. -/
def readerAtToReaderRun (blob : List Nat) (pos : Int) : List Nat → List (List Nat) × Int
  | [] => ([], pos)
  | l :: ls =>
    let r := readerAtToReaderRead blob pos l
    let rest := readerAtToReaderRun blob r.2 ls
    (r.1 :: rest.1, rest.2)

end Conv

namespace OSS

example : splitFileByPartSize 10 4 =
    .ok [⟨1, 0, 4⟩, ⟨2, 4, 4⟩, ⟨3, 8, 2⟩] := by rfl

example : splitFileByPartSize 0 4 = .ok [] := by rfl

theorem splitChunksNat_eq_pos (s c : Nat) (hr : 0 < s % c) :
    splitChunksNat s c = fullChunksNat s c
      ++ [{ number := ((s / c : Nat) : Int) + 1,
            offset := ((s / c : Nat) : Int) * (c : Int),
            size := ((s % c : Nat) : Int) }] := by
  simp only [splitChunksNat, fullChunksNat, if_pos hr, List.length_map, List.length_range]

theorem splitChunksNat_eq_neg (s c : Nat) (hr : ¬ 0 < s % c) :
    splitChunksNat s c = fullChunksNat s c := by
  simp only [splitChunksNat, fullChunksNat, if_neg hr]

theorem fullChunksNat_length (s c : Nat) : (fullChunksNat s c).length = s / c := by
  simp only [fullChunksNat, List.length_map, List.length_range]

theorem splitChunksNat_length (s c : Nat) :
    (splitChunksNat s c).length = s / c + (if 0 < s % c then 1 else 0) := by
  by_cases hr : 0 < s % c
  · rw [splitChunksNat_eq_pos s c hr, if_pos hr, List.length_append, fullChunksNat_length]
    rfl
  · rw [splitChunksNat_eq_neg s c hr, if_neg hr, fullChunksNat_length]
    omega

theorem splitFileByPartSize_nat_eq (s c : Nat) (hc : 0 < c) (hlim : s / c < 10000) :
    splitFileByPartSize (s : Int) (c : Int) = .ok (splitChunksNat s c) := by
  have h0 : ¬((c : Int) ≤ 0) := by omega
  have hdiv : (s : Int).tdiv (c : Int) = ((s / c : Nat) : Int) := rfl
  have hmod : (s : Int).tmod (c : Int) = ((s % c : Nat) : Int) := rfl
  have h1 : ¬((10000 : Int) ≤ ((s / c : Nat) : Int)) := by omega
  simp only [splitFileByPartSize, splitChunksNat, if_neg h0, hdiv, hmod, if_neg h1,
    Int.toNat_natCast]
  by_cases hr : 0 < s % c
  · rw [if_pos (show (0 : Int) < ((s % c : Nat) : Int) by omega), if_pos hr]
  · rw [if_neg (show ¬((0 : Int) < ((s % c : Nat) : Int)) by omega), if_neg hr]

theorem splitChunksNat_ceil (s c : Nat) (hc : 0 < c) :
    (splitChunksNat s c).length = (s + c - 1) / c := by
  rw [splitChunksNat_length]
  have hdm := Nat.div_add_mod s c
  have hmlt : s % c < c := Nat.mod_lt _ hc
  by_cases hr : 0 < s % c
  · rw [if_pos hr]
    have h1 : s + c - 1 = c * (s / c) + (s % c + c - 1) := by
      generalize c * (s / c) = m at hdm ⊢; omega
    have h2 : s % c + c - 1 = c * 1 + (s % c - 1) := by clear h1 hdm; omega
    have h3 : (s % c - 1) / c = 0 := Nat.div_eq_of_lt (by clear h1 h2 hdm; omega)
    rw [h1, Nat.mul_add_div hc, h2, Nat.mul_add_div hc, h3]
  · rw [if_neg hr]
    have h1 : s + c - 1 = c * (s / c) + (c - 1) := by
      generalize c * (s / c) = m at hdm ⊢; omega
    have h3 : (c - 1) / c = 0 := Nat.div_eq_of_lt (by clear h1 hdm; omega)
    rw [h1, Nat.mul_add_div hc, h3]

theorem splitChunksNat_get (s c : Nat) (hc : 0 < c) (i : Nat)
    (hi : i < (splitChunksNat s c).length) :
    (splitChunksNat s c)[i] =
      { number := (i : Int) + 1,
        offset := (i : Int) * (c : Int),
        size := if i + 1 < (splitChunksNat s c).length then (c : Int)
                else (s : Int) - (i : Int) * (c : Int) } := by
  have hdm := Nat.div_add_mod s c
  have hmlt : s % c < c := Nat.mod_lt _ hc
  have hlen := splitChunksNat_length s c
  by_cases hil : i < s / c
  · -- a full chunk from the `List.range` part
    have hgl : (splitChunksNat s c)[i] =
        { number := (i : Int) + 1, offset := (i : Int) * (c : Int), size := (c : Int) } := by
      have hif : i < (fullChunksNat s c).length := by rwa [fullChunksNat_length]
      by_cases hr : 0 < s % c
      · rw [List.getElem_of_eq (splitChunksNat_eq_pos s c hr) hi,
          List.getElem_append_left hif]
        simp only [fullChunksNat, List.getElem_map, List.getElem_range]
      · rw [List.getElem_of_eq (splitChunksNat_eq_neg s c hr) hi]
        simp only [fullChunksNat, List.getElem_map, List.getElem_range]
    rw [hgl]
    by_cases hr : 0 < s % c
    · -- remainder present: the full chunks are never the last entry
      have hmid : i + 1 < (splitChunksNat s c).length := by rw [hlen, if_pos hr]; omega
      rw [if_pos hmid]
    · -- no remainder: the last full chunk must end exactly at `s`
      by_cases hlast : i + 1 < (splitChunksNat s c).length
      · rw [if_pos hlast]
      · rw [if_neg hlast]
        have hlen0 : (splitChunksNat s c).length = s / c := by rw [hlen, if_neg hr]; omega
        have hiq : i + 1 = s / c := by omega
        have hs : s = c * (i + 1) := by
          rw [hiq]
          generalize c * (s / c) = m at hdm
          omega
        have h2 : (s : Int) = (c : Int) * ((i : Int) + 1) := by exact_mod_cast hs
        have h3 : (s : Int) - (i : Int) * (c : Int) = (c : Int) := by linear_combination h2
        rw [h3]
  · -- the remainder chunk
    have hr : 0 < s % c := by
      rcases Nat.eq_zero_or_pos (s % c) with h | h
      · exfalso
        rw [hlen, if_neg (by omega)] at hi
        omega
      · exact h
    have hieq : i = s / c := by rw [hlen, if_pos hr] at hi; omega
    have hgl : (splitChunksNat s c)[i] =
        { number := ((s / c : Nat) : Int) + 1,
          offset := ((s / c : Nat) : Int) * (c : Int),
          size := ((s % c : Nat) : Int) } := by
      rw [List.getElem_of_eq (splitChunksNat_eq_pos s c hr) (by assumption),
        List.getElem_append_right (by rw [fullChunksNat_length]; omega)]
      simp only [fullChunksNat_length, hieq, Nat.sub_self, List.getElem_cons_zero]
    have hnot : ¬(i + 1 < (splitChunksNat s c).length) := by
      rw [hlen, if_pos hr]; omega
    rw [hgl, if_neg hnot, hieq]
    have hs : c * (s / c) + s % c = s := hdm
    have h2 : (c : Int) * ((s / c : Nat) : Int) + ((s % c : Nat) : Int) = (s : Int) := by
      exact_mod_cast hs
    have h3 : ((s % c : Nat) : Int) = (s : Int) - ((s / c : Nat) : Int) * (c : Int) := by
      linear_combination h2
    rw [h3]


theorem splitFileByPartSize_nat_err (s c : Nat) (hc : 0 < c) (hlim : 10000 ≤ s / c) :
    splitFileByPartSize (s : Int) (c : Int) =
      .error "Too many parts, please increase part size" := by
  have h0 : ¬((c : Int) ≤ 0) := by omega
  have hdiv : (s : Int).tdiv (c : Int) = ((s / c : Nat) : Int) := rfl
  simp only [splitFileByPartSize, if_neg h0, hdiv]
  rw [if_pos (by omega : (10000 : Int) ≤ ((s / c : Nat) : Int))]

theorem splitChunksNat_size_pos (s c : Nat) (hc : 0 < c) :
    ∀ x ∈ splitChunksNat s c, 0 < x.size := by
  intro x hx
  by_cases hr : 0 < s % c
  · rw [splitChunksNat_eq_pos s c hr] at hx
    rcases List.mem_append.mp hx with hfull | hrem
    · obtain ⟨i, hi, rfl⟩ :=
        List.mem_map.mp (by simpa only [fullChunksNat] using hfull)
      show (0 : Int) < (c : Int)
      omega
    · rw [List.mem_singleton.mp hrem]
      show (0 : Int) < ((s % c : Nat) : Int)
      omega
  · rw [splitChunksNat_eq_neg s c hr] at hx
    obtain ⟨i, hi, rfl⟩ :=
      List.mem_map.mp (by simpa only [fullChunksNat] using hx)
    show (0 : Int) < (c : Int)
    omega

/-- C2: for every blob size `S ≥ 0` and chunk size `C > 0` (naturals, cast
to int64), when `splitFileByPartSize` succeeds it returns exactly
`ceil(S/C)` chunks (zero when `S = 0`), numbered consecutively from 1, whose
(offset, size) intervals exactly partition `[0, S)`: chunk `i` starts at
byte `i*C`, every chunk except the last has size `C`, the last chunk ends
exactly at byte `S`, and every size is positive — hence no gaps and no
overlaps. -/
theorem split_partitions (s c : Nat) (hc : 0 < c)
    (chunks : List FileChunk)
    (h : splitFileByPartSize (s : Int) (c : Int) = .ok chunks) :
    chunks.length = (s + c - 1) / c ∧
    (s = 0 → chunks = []) ∧
    (∀ i (hi : i < chunks.length), (chunks.get ⟨i, hi⟩).number = (i : Int) + 1) ∧
    (∀ i (hi : i < chunks.length), (chunks.get ⟨i, hi⟩).offset = (i : Int) * (c : Int)) ∧
    (∀ i (hi : i < chunks.length), (chunks.get ⟨i, hi⟩).size =
      if i + 1 < chunks.length then (c : Int) else (s : Int) - (i : Int) * (c : Int)) ∧
    (∀ i (hi : i < chunks.length), 0 < (chunks.get ⟨i, hi⟩).size) := by
  have hlim : s / c < 10000 := by
    by_contra hge
    rw [splitFileByPartSize_nat_err s c hc (Nat.le_of_not_lt hge)] at h
    exact Except.noConfusion h
  rw [splitFileByPartSize_nat_eq s c hc hlim] at h
  obtain rfl : splitChunksNat s c = chunks := Except.ok.inj h
  refine ⟨splitChunksNat_ceil s c hc, ?_, ?_, ?_, ?_, ?_⟩
  · intro h0
    subst h0
    rw [splitChunksNat_eq_neg 0 c (by simp)]
    simp only [fullChunksNat, Nat.zero_div, List.range_zero, List.map_nil]
  · intro i hi
    rw [List.get_eq_getElem, splitChunksNat_get s c hc i hi]
  · intro i hi
    rw [List.get_eq_getElem, splitChunksNat_get s c hc i hi]
  · intro i hi
    rw [List.get_eq_getElem, splitChunksNat_get s c hc i hi]
  · intro i hi
    exact splitChunksNat_size_pos s c hc _ (List.get_mem _ i hi)

/-- Witness for C2 at `S = 10`, `C = 4`: three chunks `(1,0,4) (2,4,4)
(3,8,2)`, and the count matches `ceil(10/4) = 3`. -/
theorem split_partitions_witness :
    splitFileByPartSize ((10 : Nat) : Int) ((4 : Nat) : Int) =
      .ok [⟨1, 0, 4⟩, ⟨2, 4, 4⟩, ⟨3, 8, 2⟩] ∧
    ([⟨1, 0, 4⟩, ⟨2, 4, 4⟩, ⟨3, 8, 2⟩] : List FileChunk).length = (10 + 4 - 1) / 4 :=
  ⟨by rfl, (split_partitions 10 4 (by decide) [⟨1, 0, 4⟩, ⟨2, 4, 4⟩, ⟨3, 8, 2⟩] (by rfl)).1⟩

/-- C3 counterexample: at blob size 19999 and chunk size 2 the resulting
part count is exactly 10000 — it reaches the multipart ceiling — yet
`splitFileByPartSize` accepts the configuration, because the guard tests
`blobSize / chunkSize >= 10000` (9999 here), not the final part count. -/
theorem split_reject_counterexample :
    (splitFileByPartSize ((19999 : Nat) : Int) ((2 : Nat) : Int)).isOk = true ∧
    (match splitFileByPartSize ((19999 : Nat) : Int) ((2 : Nat) : Int) with
      | .ok chunks => chunks.length
      | .error _ => 0) = 10000 := by
  rw [splitFileByPartSize_nat_eq 19999 2 (by decide) (by decide)]
  refine ⟨rfl, ?_⟩
  show (splitChunksNat 19999 2).length = 10000
  rw [splitChunksNat_length]
  decide

/-- C3 amended: for `C > 0` the splitter rejects exactly when
`floor(S/C) ≥ 10000` — every configuration with part count below 10000 is
accepted, every configuration with part count above 10000 is rejected, but a
part count of exactly 10000 reached through a trailing partial chunk is
accepted; and when the split is rejected, `push` fails before any multipart
network call: its collaborator trace holds only the existence check. -/
theorem split_reject_iff (s c : Nat) (hc : 0 < c) :
    ((splitFileByPartSize (s : Int) (c : Int)).isOk = false ↔ 10000 ≤ s / c) ∧
    (∀ env : PushEnv, env.existsResult = .ok false →
      (splitFileByPartSize env.blobSize multipartChunkSize).isOk = false →
      (pushModel env).1 = [OSSEvent.isObjectExist] ∧ (pushModel env).2.isSome = true) := by
  constructor
  · by_cases hge : 10000 ≤ s / c
    · rw [splitFileByPartSize_nat_err s c hc hge]
      simp [Except.isOk, Except.toBool, hge]
    · rw [splitFileByPartSize_nat_eq s c hc (Nat.lt_of_not_le hge)]
      simp [Except.isOk, Except.toBool, hge]
  · intro env hex hsp
    cases hspm : splitFileByPartSize env.blobSize multipartChunkSize with
    | error e => simp [pushModel, hex, hspm]
    | ok chunks => rw [hspm] at hsp; exact absurd hsp (by simp [Except.isOk, Except.toBool])

/-- Witness for C3 amended at `S = 10000`, `C = 1` (rejected, part count
10000 with no partial chunk) and at the big-blob push environment. -/
theorem split_reject_iff_witness :
    (splitFileByPartSize ((10000 : Nat) : Int) ((1 : Nat) : Int)).isOk = false ∧
    (pushModel envSplitReject).1 = [OSSEvent.isObjectExist] ∧
    (pushModel envSplitReject).2.isSome = true :=
  ⟨(split_reject_iff 10000 1 (by decide)).1.mpr (by decide),
   (split_reject_iff 1 1 (by decide)).2 envSplitReject (by rfl) (by rfl)⟩


theorem filter_complete_uploads (sid : Nat) (l : List Int) :
    (l.map (fun n => OSSEvent.uploadPart sid n)).filter (fun e => isCompleteEvent e) = [] := by
  induction l with
  | nil => rfl
  | cons a t ih => simp [List.filter_cons, isCompleteEvent, ih]

theorem complete_not_mem_uploads (sid sid2 : Nat) (parts : List Int) (l : List Int) :
    OSSEvent.complete sid2 parts ∉ l.map (fun n => OSSEvent.uploadPart sid n) := by
  simp

theorem firstUploadErr_none_all_ok (env : PushEnv) (h : firstUploadErr env = none) :
    ∀ n ∈ env.schedule, (env.uploadResult n).isOk = true := by
  intro n hn
  unfold firstUploadErr at h
  rw [Option.map_eq_none'] at h
  have := List.find?_eq_none.mp h n hn
  simpa using this

/-- C4 amended: in a push attempt that reaches the upload phase, the
complete-multipart-upload call happens at most once; and when it happens,
every chunk upload succeeded first, the part list submitted is exactly the
parts collected from `partsChan` — one handle per chunk, in goroutine
completion order, a permutation of the part numbers 1..N but not necessarily
sorted — and the trace shows completion after all uploads. -/
theorem push_complete_once (env : PushEnv) (chunks : List FileChunk) (sid : Nat)
    (hex : env.existsResult = .ok false)
    (hsp : splitFileByPartSize env.blobSize multipartChunkSize = .ok chunks)
    (hin : env.initiateResult = .ok sid)
    (hperm : env.schedule.Perm (chunks.map FileChunk.number)) :
    ((pushModel env).1.filter (fun e => isCompleteEvent e)).length ≤ 1 ∧
    (∀ parts, OSSEvent.complete sid parts ∈ (pushModel env).1 →
      (∀ n ∈ env.schedule, (env.uploadResult n).isOk = true) ∧
      parts = env.schedule ∧
      parts.Perm (chunks.map FileChunk.number) ∧
      (pushModel env).1 =
        [OSSEvent.isObjectExist, OSSEvent.initiate sid]
          ++ env.schedule.map (fun n => OSSEvent.uploadPart sid n)
          ++ [OSSEvent.complete sid parts]) := by
  cases hfu : firstUploadErr env with
  | some e =>
    have hpm : (pushModel env).1 =
        [OSSEvent.isObjectExist, OSSEvent.initiate sid]
          ++ env.schedule.map (fun n => OSSEvent.uploadPart sid n)
          ++ [OSSEvent.abort sid] := by
      simp only [pushModel, hex, hsp, hin, hfu]
    rw [hpm]
    constructor
    · rw [List.filter_append, List.filter_append, filter_complete_uploads]
      simp [isCompleteEvent]
    · intro parts hmem
      exfalso
      rcases List.mem_append.mp hmem with h1 | h2
      · rcases List.mem_append.mp h1 with h11 | h12
        · simp at h11
        · exact complete_not_mem_uploads sid sid parts env.schedule h12
      · simp at h2
  | none =>
    have hall := firstUploadErr_none_all_ok env hfu
    have hpm : (pushModel env).1 =
        [OSSEvent.isObjectExist, OSSEvent.initiate sid]
          ++ env.schedule.map (fun n => OSSEvent.uploadPart sid n)
          ++ [OSSEvent.complete sid env.schedule] := by
      cases hcr : env.completeResult with
      | error e => simp only [pushModel, hex, hsp, hin, hfu, hcr]
      | ok u => simp only [pushModel, hex, hsp, hin, hfu, hcr]
    rw [hpm]
    constructor
    · rw [List.filter_append, List.filter_append, filter_complete_uploads]
      simp [isCompleteEvent]
    · intro parts hmem
      have hp : parts = env.schedule := by
        rcases List.mem_append.mp hmem with h1 | h2
        · rcases List.mem_append.mp h1 with h11 | h12
          · simp at h11
          · exact absurd h12 (complete_not_mem_uploads sid sid parts env.schedule)
        · have h21 := List.mem_singleton.mp h2
          simp only [OSSEvent.complete.injEq] at h21
          exact h21.2
      subst hp
      exact ⟨hall, rfl, hperm, rfl⟩

/-- C4 counterexample: with two chunks whose uploads finish in the order
part 2 then part 1, the completion call receives the part list `[2, 1]` —
one handle per chunk but not ordered by part number. -/
theorem push_parts_order_counterexample :
    pushModel envTwoChunks =
      ([OSSEvent.isObjectExist, OSSEvent.initiate 7, OSSEvent.uploadPart 7 2,
        OSSEvent.uploadPart 7 1, OSSEvent.complete 7 [2, 1]], none) ∧
    ([2, 1] : List Int) ≠ [1, 2] :=
  ⟨by rfl, by decide⟩

/-- Witness for C4 amended at the two-chunk environment with completion
order `[1, 2]`. -/
theorem push_complete_once_witness :
    ((pushModel envTwoChunksSorted).1.filter (fun e => isCompleteEvent e)).length ≤ 1 :=
  (push_complete_once envTwoChunksSorted
    [⟨1, 0, multipartChunkSize⟩, ⟨2, multipartChunkSize, multipartChunkSize⟩] 7
    (by rfl) (by rfl) (by rfl) (by decide)).1


theorem pushModel_shape (env : PushEnv) :
    (pushModel env).1 = [OSSEvent.isObjectExist] ∨
    (∃ sid, env.initiateResult = Except.ok sid ∧ firstUploadErr env ≠ none ∧
        (pushModel env).1 =
          [OSSEvent.isObjectExist, OSSEvent.initiate sid]
            ++ env.schedule.map (fun n => OSSEvent.uploadPart sid n)
            ++ [OSSEvent.abort sid]) ∨
    (∃ sid, env.initiateResult = Except.ok sid ∧ firstUploadErr env = none ∧
        (pushModel env).1 =
          [OSSEvent.isObjectExist, OSSEvent.initiate sid]
            ++ env.schedule.map (fun n => OSSEvent.uploadPart sid n)
            ++ [OSSEvent.complete sid env.schedule] ∧
        ((pushModel env).2 = none ↔ env.completeResult.isOk = true)) := by
  cases hex : env.existsResult with
  | error msg => left; simp [pushModel, hex]
  | ok b =>
    cases b with
    | true => left; simp [pushModel, hex]
    | false =>
      cases hsp : splitFileByPartSize env.blobSize multipartChunkSize with
      | error msg => left; simp [pushModel, hex, hsp]
      | ok chunks =>
        cases hin : env.initiateResult with
        | error msg => left; simp [pushModel, hex, hsp, hin]
        | ok sid =>
          cases hfu : firstUploadErr env with
          | some msg =>
            right; left
            exact ⟨sid, rfl, by simp [hfu], by simp [pushModel, hex, hsp, hin, hfu]⟩
          | none =>
            right; right
            refine ⟨sid, rfl, rfl, ?_, ?_⟩
            · cases hcr : env.completeResult with
              | error e => simp [pushModel, hex, hsp, hin, hfu, hcr]
              | ok u => simp [pushModel, hex, hsp, hin, hfu, hcr]
            · cases hcr : env.completeResult with
              | error e => simp [pushModel, hex, hsp, hin, hfu, hcr, Except.isOk, Except.toBool]
              | ok u => simp [pushModel, hex, hsp, hin, hfu, hcr, Except.isOk, Except.toBool]

theorem pushModel_sid (env : PushEnv) (e : OSSEvent)
    (he : e ∈ (pushModel env).1) (sid : Nat) (hs : eventSid e = some sid) :
    env.initiateResult = Except.ok sid := by
  rcases pushModel_shape env with h1 | ⟨sid2, hin, _, hev⟩ | ⟨sid2, hin, _, hev, _⟩
  · rw [h1] at he
    rw [List.mem_singleton.mp he] at hs
    exact Option.noConfusion hs
  · rw [hev] at he
    simp only [List.mem_append, List.mem_cons, List.mem_singleton, List.mem_map,
      List.not_mem_nil, or_false] at he
    rcases he with hL | h
    · rcases hL with hLL | ⟨n, hn, h⟩
      · rcases hLL with h | h
        · subst h; exact Option.noConfusion hs
        · subst h
          simp only [eventSid, Option.some.injEq] at hs
          rw [← hs]; exact hin
      · subst h
        simp only [eventSid, Option.some.injEq] at hs
        rw [← hs]; exact hin
    · subst h
      simp only [eventSid, Option.some.injEq] at hs
      rw [← hs]; exact hin
  · rw [hev] at he
    simp only [List.mem_append, List.mem_cons, List.mem_singleton, List.mem_map,
      List.not_mem_nil, or_false] at he
    rcases he with hL | h
    · rcases hL with hLL | ⟨n, hn, h⟩
      · rcases hLL with h | h
        · subst h; exact Option.noConfusion hs
        · subst h
          simp only [eventSid, Option.some.injEq] at hs
          rw [← hs]; exact hin
      · subst h
        simp only [eventSid, Option.some.injEq] at hs
        rw [← hs]; exact hin
    · subst h
      simp only [eventSid, Option.some.injEq] at hs
      rw [← hs]; exact hin

theorem pushModel_finalized (env : PushEnv) (sid : Nat)
    (hmem : OSSEvent.initiate sid ∈ (pushModel env).1)
    (hok : env.completeResult.isOk = true ∨ firstUploadErr env ≠ none) :
    sessionFinalized (pushModel env).1 (pushModel env).2 sid := by
  rcases pushModel_shape env with h1 | ⟨sid2, hin, _, hev⟩ | ⟨sid2, hin, hfu, hev, hiff⟩
  · rw [h1] at hmem
    simp at hmem
  · have hsid : sid = sid2 := by
      rw [hev] at hmem
      simpa using hmem
    subst hsid
    left
    rw [hev]
    simp
  · have hsid : sid = sid2 := by
      rw [hev] at hmem
      simpa using hmem
    subst hsid
    have hcr : env.completeResult.isOk = true := by
      rcases hok with h | h
      · exact h
      · exact absurd hfu h
    right
    refine ⟨hiff.mpr hcr, env.schedule, ?_⟩
    rw [hev]
    simp

theorem pushRetryAux_succ (envs : Nat → PushEnv) (ctxDone : Nat → Bool)
    (fuel k b now : Nat) :
    pushRetryAux envs ctxDone (fuel + 1) k b now =
      match (pushModel (envs k)).2 with
      | none => ([(pushModel (envs k)).1], [now], none)
      | some e =>
        if ctxDone k then ([(pushModel (envs k)).1], [now], some e)
        else if 8 * timeSecond ≤ b then ([(pushModel (envs k)).1], [now], some e)
        else
          ((pushModel (envs k)).1 ::
              (pushRetryAux envs ctxDone fuel (k + 1) (b * 2) (now + b)).1,
            now :: (pushRetryAux envs ctxDone fuel (k + 1) (b * 2) (now + b)).2.1,
            (pushRetryAux envs ctxDone fuel (k + 1) (b * 2) (now + b)).2.2) := rfl

theorem pushRetryAux_trace_get? (envs : Nat → PushEnv) (ctxDone : Nat → Bool) :
    ∀ (fuel k0 b now k : Nat) (trace : List OSSEvent),
      ((pushRetryAux envs ctxDone fuel k0 b now).1).get? k = some trace →
      trace = (pushModel (envs (k0 + k))).1 := by
  intro fuel
  induction fuel with
  | zero =>
    intro k0 b now k trace h
    simp [pushRetryAux] at h
  | succ f ih =>
    intro k0 b now k trace h
    rw [pushRetryAux_succ] at h
    cases hr : (pushModel (envs k0)).2 with
    | none =>
      simp only [hr] at h
      cases k with
      | zero =>
        simp only [List.get?_cons_zero, Option.some.injEq] at h
        rw [Nat.add_zero]
        exact h.symm
      | succ k2 =>
        simp only [List.get?_cons_succ, List.get?_nil] at h
        exact Option.noConfusion h
    | some e =>
      simp only [hr] at h
      by_cases hcd : ctxDone k0 = true
      · rw [if_pos hcd] at h
        cases k with
        | zero =>
          simp only [List.get?_cons_zero, Option.some.injEq] at h
          rw [Nat.add_zero]
          exact h.symm
        | succ k2 =>
          simp only [List.get?_cons_succ, List.get?_nil] at h
          exact Option.noConfusion h
      · rw [if_neg hcd] at h
        by_cases hb : 8 * timeSecond ≤ b
        · rw [if_pos hb] at h
          cases k with
          | zero =>
            simp only [List.get?_cons_zero, Option.some.injEq] at h
            rw [Nat.add_zero]
            exact h.symm
          | succ k2 =>
            simp only [List.get?_cons_succ, List.get?_nil] at h
            exact Option.noConfusion h
        · rw [if_neg hb] at h
          cases k with
          | zero =>
            simp only [List.get?_cons_zero, Option.some.injEq] at h
            rw [Nat.add_zero]
            exact h.symm
          | succ k2 =>
            simp only [List.get?_cons_succ] at h
            have h2 := ih (k0 + 1) (b * 2) (now + b) k2 trace h
            have hk : k0 + (k2 + 1) = k0 + 1 + k2 := by omega
            rw [hk]
            exact h2


theorem pushRetryAux_ok (envs : Nat → PushEnv) (ctxDone : Nat → Bool)
    (fuel k b now : Nat) (hfuel : fuel ≠ 0)
    (h : (pushModel (envs k)).2 = none) :
    pushRetryAux envs ctxDone fuel k b now = ([(pushModel (envs k)).1], [now], none) := by
  obtain ⟨f, rfl⟩ : ∃ f, fuel = f + 1 := ⟨fuel - 1, by omega⟩
  rw [pushRetryAux_succ]
  simp only [h]

theorem pushRetryAux_fail_done (envs : Nat → PushEnv) (ctxDone : Nat → Bool)
    (fuel k b now : Nat) (e : String) (hfuel : fuel ≠ 0)
    (h : (pushModel (envs k)).2 = some e) (hd : ctxDone k = true) :
    pushRetryAux envs ctxDone fuel k b now = ([(pushModel (envs k)).1], [now], some e) := by
  obtain ⟨f, rfl⟩ : ∃ f, fuel = f + 1 := ⟨fuel - 1, by omega⟩
  rw [pushRetryAux_succ]
  simp only [h]
  rw [if_pos hd]

theorem pushRetryAux_fail_cap (envs : Nat → PushEnv) (ctxDone : Nat → Bool)
    (fuel k b now : Nat) (e : String) (hfuel : fuel ≠ 0)
    (h : (pushModel (envs k)).2 = some e) (hd : ctxDone k = false)
    (hb : 8 * timeSecond ≤ b) :
    pushRetryAux envs ctxDone fuel k b now = ([(pushModel (envs k)).1], [now], some e) := by
  obtain ⟨f, rfl⟩ : ∃ f, fuel = f + 1 := ⟨fuel - 1, by omega⟩
  rw [pushRetryAux_succ]
  simp only [h]
  rw [if_neg (by simp [hd]), if_pos hb]

theorem pushRetryAux_fail_retry (envs : Nat → PushEnv) (ctxDone : Nat → Bool)
    (fuel k b now : Nat) (e : String) (hfuel : fuel ≠ 0)
    (h : (pushModel (envs k)).2 = some e) (hd : ctxDone k = false)
    (hb : ¬ 8 * timeSecond ≤ b) :
    pushRetryAux envs ctxDone fuel k b now =
      ((pushModel (envs k)).1 ::
          (pushRetryAux envs ctxDone (fuel - 1) (k + 1) (b * 2) (now + b)).1,
        now :: (pushRetryAux envs ctxDone (fuel - 1) (k + 1) (b * 2) (now + b)).2.1,
        (pushRetryAux envs ctxDone (fuel - 1) (k + 1) (b * 2) (now + b)).2.2) := by
  obtain ⟨f, rfl⟩ : ∃ f, fuel = f + 1 := ⟨fuel - 1, by omega⟩
  simp only [Nat.add_sub_cancel]
  rw [pushRetryAux_succ]
  simp only [h]
  rw [if_neg (by simp [hd]), if_neg hb]

/-- C5 amended: every multipart session a push attempt initiates is
completed or aborted before the attempt returns on every return path
except a failure of the completion call itself (there the attempt returns
the wrapped error without aborting, leaving the session dangling); and every
collaborator call of attempt `k` of the retry loop addresses the session id
that attempt `k`'s own initiate call returned — a retry never reuses a
session created by an earlier attempt. -/
theorem push_session_lifecycle :
    (∀ (env : PushEnv) (sid : Nat),
        OSSEvent.initiate sid ∈ (pushModel env).1 →
        (env.completeResult.isOk = true ∨ firstUploadErr env ≠ none) →
        sessionFinalized (pushModel env).1 (pushModel env).2 sid) ∧
    (∀ (envs : Nat → PushEnv) (ctxDone : Nat → Bool) (k : Nat) (trace : List OSSEvent),
        ((pushRetry envs ctxDone).1).get? k = some trace →
        ∀ e ∈ trace, ∀ sid, eventSid e = some sid →
          (envs k).initiateResult = Except.ok sid) := by
  constructor
  · exact pushModel_finalized
  · intro envs ctxDone k trace htr e he sid hs
    have h1 := pushRetryAux_trace_get? envs ctxDone 4 0 timeSecond 0 k trace htr
    rw [Nat.zero_add] at h1
    subst h1
    exact pushModel_sid (envs k) e he sid hs

/-- C5 counterexample: with one chunk whose upload succeeds and a completion
call that fails, the attempt initiates session 5, returns a non-nil error,
and neither aborts nor successfully completes the session — it is left
dangling on the completion-failure return path. -/
theorem push_dangling_counterexample :
    OSSEvent.initiate 5 ∈ (pushModel envOneChunkCompleteErr).1 ∧
    (pushModel envOneChunkCompleteErr).2.isSome = true ∧
    ¬ sessionFinalized (pushModel envOneChunkCompleteErr).1
        (pushModel envOneChunkCompleteErr).2 5 := by
  have hpm : pushModel envOneChunkCompleteErr =
      ([OSSEvent.isObjectExist, OSSEvent.initiate 5, OSSEvent.uploadPart 5 1,
        OSSEvent.complete 5 [1]],
        some "complete multipart upload: server 500") := by rfl
  refine ⟨by rw [hpm]; decide, by rw [hpm]; rfl, ?_⟩
  rw [hpm]
  rintro (habort | ⟨hnone, _⟩)
  · exact absurd habort (by decide)
  · exact Option.noConfusion hnone

/-- Witness for C5 at the all-success one-chunk environment: the session is
finalized (successfully completed), and attempt 0 of the concrete retry run
only addresses its own session id. -/
theorem push_session_lifecycle_witness :
    sessionFinalized (pushModel envOneChunkOk).1 (pushModel envOneChunkOk).2 5 ∧
    envOneChunkOk.initiateResult = Except.ok 5 :=
  ⟨push_session_lifecycle.1 envOneChunkOk 5 (by decide) (Or.inl (by rfl)),
   push_session_lifecycle.2 (fun _ => envOneChunkOk) (fun _ => false) 0
     (pushModel envOneChunkOk).1 (by rfl) (OSSEvent.initiate 5) (by decide) 5 (by rfl)⟩

/-- C6: when every attempt fails and the context is never canceled, the
retry wrapper makes exactly 4 attempts, at 0s, 1s, 3s and 7s after the call
began, and returns the error of the last (4th) attempt. -/
theorem push_retry_backoff (envs : Nat → PushEnv)
    (hfail : ∀ k, ((pushModel (envs k)).2).isSome = true) :
    pushRetry envs (fun _ => false) =
      ([(pushModel (envs 0)).1, (pushModel (envs 1)).1, (pushModel (envs 2)).1,
        (pushModel (envs 3)).1],
       [0, timeSecond, 3 * timeSecond, 7 * timeSecond],
       (pushModel (envs 3)).2) := by
  obtain ⟨e0, h0⟩ := Option.isSome_iff_exists.mp (hfail 0)
  obtain ⟨e1, h1⟩ := Option.isSome_iff_exists.mp (hfail 1)
  obtain ⟨e2, h2⟩ := Option.isSome_iff_exists.mp (hfail 2)
  obtain ⟨e3, h3⟩ := Option.isSome_iff_exists.mp (hfail 3)
  show pushRetryAux envs (fun _ => false) 4 0 timeSecond 0 = _
  rw [pushRetryAux_fail_retry envs (fun _ => false) 4 0 timeSecond 0 e0
      (by decide) h0 rfl (by decide)]
  rw [pushRetryAux_fail_retry envs (fun _ => false) (4 - 1) (0 + 1) (timeSecond * 2)
      (0 + timeSecond) e1 (by decide) h1 rfl (by decide)]
  rw [pushRetryAux_fail_retry envs (fun _ => false) (4 - 1 - 1) (0 + 1 + 1)
      (timeSecond * 2 * 2) (0 + timeSecond + timeSecond * 2) e2
      (by decide) h2 rfl (by decide)]
  rw [pushRetryAux_fail_cap envs (fun _ => false) (4 - 1 - 1 - 1) (0 + 1 + 1 + 1)
      (timeSecond * 2 * 2 * 2) (0 + timeSecond + timeSecond * 2 + timeSecond * 2 * 2) e3
      (by decide) h3 rfl (by decide)]
  rw [h3]
  norm_num [timeSecond]

/-- Witness for C6: with every attempt failing the existence check, the
four attempts happen at 0, 1, 3 and 7 seconds and the last error is
returned. -/
theorem push_retry_backoff_witness :
    pushRetry (fun _ => envCheckFail) (fun _ => false) =
      ([[OSSEvent.isObjectExist], [OSSEvent.isObjectExist], [OSSEvent.isObjectExist],
        [OSSEvent.isObjectExist]],
       [0, 1000000000, 3000000000, 7000000000],
       some "check object existence: boom") := by
  rw [push_retry_backoff (fun _ => envCheckFail) (fun _ => rfl)]
  rfl

/-- C7 amended: the retry loop checks cancellation only after a failed
attempt (never before an attempt or before a sleep): if attempt 0 fails and
the context is done at that check, `Push` returns immediately after that one
attempt with the attempt's own error — the same value a transient failure
produces, with no distinct cancellation outcome; and a successful attempt
returns nil even when the context is already canceled. -/
theorem push_cancel_after_attempt (envs : Nat → PushEnv) (ctxDone : Nat → Bool) :
    (∀ e, (pushModel (envs 0)).2 = some e → ctxDone 0 = true →
      pushRetry envs ctxDone = ([(pushModel (envs 0)).1], [0], some e)) ∧
    ((pushModel (envs 0)).2 = none →
      pushRetry envs ctxDone = ([(pushModel (envs 0)).1], [0], none)) := by
  constructor
  · intro e he hd
    show pushRetryAux envs ctxDone 4 0 timeSecond 0 = _
    exact pushRetryAux_fail_done envs ctxDone 4 0 timeSecond 0 e (by decide) he hd
  · intro he
    show pushRetryAux envs ctxDone 4 0 timeSecond 0 = _
    exact pushRetryAux_ok envs ctxDone 4 0 timeSecond 0 (by decide) he

/-- C7 counterexample: with the context canceled from the start, the first
attempt still runs (one trace is produced) and the returned outcome is
exactly the transient error of the attempt — identical to the outcome of the
never-canceled exhausted-retries run, so cancellation is conflated with a
transient failure rather than reported distinctly. -/
theorem push_cancel_conflated_counterexample :
    (pushRetry (fun _ => envCheckFailCancel) (fun _ => true)).2.2 =
      some "check object existence: boom" ∧
    (pushRetry (fun _ => envCheckFailCancel) (fun _ => false)).2.2 =
      some "check object existence: boom" ∧
    (pushRetry (fun _ => envCheckFailCancel) (fun _ => true)).1.length = 1 :=
  ⟨rfl, rfl, rfl⟩

/-- Witness for C7 amended at the canceled concrete run. -/
theorem push_cancel_after_attempt_witness :
    pushRetry (fun _ => envCheckFailCancel) (fun _ => true) =
      ([(pushModel envCheckFailCancel).1], [0], some "check object existence: boom") :=
  (push_cancel_after_attempt (fun _ => envCheckFailCancel) (fun _ => true)).1
    "check object existence: boom" rfl rfl

end OSS

namespace Conv

theorem unpackLoop_succ (parse : List Nat → Option TarHeader) (blob : List Nat)
    (fuel : Nat) (cur pos : Int) :
    unpackLoop parse blob (fuel + 1) cur pos =
      match blockAt blob (seekReaderSeekCurrent pos (cur - 512)) with
      | none => .error .header
      | some block =>
        match parse block with
        | none => .error .header
        | some hdr =>
          if hdr.name = bootstrapNameInTar then
            copyN blob ((seekReaderSeekCurrent pos (cur - 512)) - hdr.size) hdr.size
          else if (seekReaderSeekCurrent pos (cur - 512)) = hdr.size then
            .error .notFound
          else
            unpackLoop parse blob fuel (seekReaderSeekCurrent pos (cur - 512))
              ((seekReaderSeekCurrent pos (cur - 512)) + 512) := rfl

/-- C8: for a blob whose final 512-byte block parses as a tar header named
`image.boot` with declared size `M` that fits in the bytes before the
header, the locator succeeds and writes exactly the `M` bytes starting at
offset (header position) − M, i.e. `blob.length − 512 − M`. -/
theorem unpackBootstrap_last_entry (parse : List Nat → Option TarHeader)
    (blob : List Nat) (M : Nat)
    (hlen : 512 ≤ blob.length)
    (hparse : parse ((blob.drop (blob.length - 512)).take 512) =
        some ⟨bootstrapNameInTar, (M : Int)⟩)
    (hM : M ≤ blob.length - 512) :
    unpackBootstrapFromNydusTar parse blob =
      .ok ((blob.drop (blob.length - 512 - M)).take M) := by
  unfold unpackBootstrapFromNydusTar
  rw [unpackLoop_succ]
  have hz : seekReaderSeekCurrent 0 ((blob.length : Int) - 512) =
      (blob.length : Int) - 512 := by
    simp [seekReaderSeekCurrent]
  rw [hz]
  have hba : blockAt blob ((blob.length : Int) - 512) =
      some ((blob.drop (blob.length - 512)).take 512) := by
    unfold blockAt
    rw [if_pos (by constructor <;> omega)]
    rw [show ((blob.length : Int) - 512).toNat = blob.length - 512 from by omega]
  simp only [hba, hparse]
  rw [if_true]
  show copyN blob ((blob.length : Int) - 512 - (M : Int)) (M : Int) = _
  by_cases hM0 : M = 0
  · subst hM0
    simp [copyN]
  · unfold copyN
    rw [if_neg (by omega), if_pos (by constructor <;> omega)]
    rw [show ((blob.length : Int) - 512 - (M : Int)).toNat = blob.length - 512 - M from by omega]
    rw [show ((M : Nat) : Int).toNat = M from by omega]

set_option maxRecDepth 40000 in
/-- Witness for C8: a synthetic nydus tar `[data entry of one 512-byte
block and 3 content bytes, bootstrap header block]` from which the locator
recovers exactly the 3 bootstrap bytes. -/
theorem unpackBootstrap_last_entry_witness :
    unpackBootstrapFromNydusTar
        (fun bs => if bs = List.replicate 512 1 then
          some ⟨bootstrapNameInTar, ((3 : Nat) : Int)⟩ else none)
        (List.replicate 512 0 ++ [7, 8, 9] ++ List.replicate 512 1) =
      .ok [7, 8, 9] := by
  have h := unpackBootstrap_last_entry
      (fun bs => if bs = List.replicate 512 1 then
        some ⟨bootstrapNameInTar, ((3 : Nat) : Int)⟩ else none)
      (List.replicate 512 0 ++ [7, 8, 9] ++ List.replicate 512 1) 3
      (by decide) (by decide) (by decide)
  rw [h]
  rfl

/-- C9 amended: the reverse scan aborts with the wrapped parse error on any
failed header parse — it does not skip the position and continue; an empty
blob also produces the parse error (the seek goes to −512 and the header
read fails), not the not-found error; the not-found error arises when a
successfully parsed header does not match the bootstrap name and its
declared size equals its own position (the scan reached the start of the
blob). -/
theorem unpackBootstrap_parse_failure_aborts (parse : List Nat → Option TarHeader)
    (blob : List Nat) :
    (blob = [] → unpackBootstrapFromNydusTar parse blob = .error .header) ∧
    (∀ block, blockAt blob ((blob.length : Int) - 512) = some block →
      parse block = none →
      unpackBootstrapFromNydusTar parse blob = .error .header) ∧
    (∀ block hdr, blockAt blob ((blob.length : Int) - 512) = some block →
      parse block = some hdr →
      hdr.name ≠ bootstrapNameInTar →
      (blob.length : Int) - 512 = hdr.size →
      unpackBootstrapFromNydusTar parse blob = .error .notFound) := by
  have hz : seekReaderSeekCurrent 0 ((blob.length : Int) - 512) =
      (blob.length : Int) - 512 := by
    simp [seekReaderSeekCurrent]
  refine ⟨?_, ?_, ?_⟩
  · intro h0
    subst h0
    rfl
  · intro block hba hpn
    unfold unpackBootstrapFromNydusTar
    rw [unpackLoop_succ, hz]
    simp only [hba, hpn]
  · intro block hdr hba hp hname hsize
    unfold unpackBootstrapFromNydusTar
    rw [unpackLoop_succ, hz]
    simp only [hba, hp]
    rw [if_neg hname, if_pos hsize]

set_option maxRecDepth 40000 in
/-- C9 counterexample: a 512-byte blob whose only header position fails to
parse makes the locator abort with the parse error — the scan does not
continue — and the empty blob also yields the parse error, not the
not-found error the claim requires. -/
theorem unpack_skip_claim_counterexample :
    unpackBootstrapFromNydusTar (fun _ => none) (List.replicate 512 0) =
      .error .header ∧
    UnpackErr.header ≠ UnpackErr.notFound ∧
    unpackBootstrapFromNydusTar (fun _ => none) ([] : List Nat) = .error .header :=
  ⟨rfl, by decide, rfl⟩

set_option maxRecDepth 40000 in
/-- Witness for C9 amended: a 1024-byte blob whose tail block fails to
parse aborts with the parse error. -/
theorem unpackBootstrap_parse_failure_aborts_witness :
    unpackBootstrapFromNydusTar (fun _ => none) (List.replicate 1024 0) =
      .error .header :=
  (unpackBootstrap_parse_failure_aborts (fun _ => none) (List.replicate 1024 0)).2.1
    (List.replicate 512 0) (by decide) rfl

/-- C1 (code bug): evaluating the close action at an input whose OCI tar
extraction fails shows `Close` blocking forever on the `unpackDone` receive
— it never returns the failure — while the all-success input returns nil;
so `Close` does not always return, contradicting the contract stated both
in the spec and in `Convert`'s own doc comment. -/
theorem convertClose_unpack_failure_hangs :
    convertCloseOutcome ⟨some "unpack failed", none, none, none⟩ =
      CloseOutcome.blocksForever ∧
    (∀ e, CloseOutcome.blocksForever ≠ CloseOutcome.returns e) ∧
    convertCloseOutcome ⟨none, none, none, none⟩ = CloseOutcome.returns none :=
  ⟨rfl, fun _ h => CloseOutcome.noConfusion h, rfl⟩

theorem readerAtToReaderRun_get? (blob : List Nat) :
    ∀ (ls : List Nat) (pos : Int) (i : Nat),
      ((readerAtToReaderRun blob pos ls).1).get? i =
        (ls.get? i).map (fun m => readAt blob (pos + ((ls.take i).sum : Int)) m) := by
  intro ls
  induction ls with
  | nil => intro pos i; simp [readerAtToReaderRun]
  | cons l t ih =>
    intro pos i
    cases i with
    | zero => simp [readerAtToReaderRun, readerAtToReaderRead]
    | succ j =>
      simp only [readerAtToReaderRun, List.get?_cons_succ]
      rw [show (readerAtToReaderRead blob pos l).2 = pos + (l : Int) from rfl]
      rw [ih (pos + l) j]
      have hoff : pos + (l : Int) + (((t.take j).sum : Nat) : Int) =
          pos + ((((l :: t).take (j + 1)).sum : Nat) : Int) := by
        rw [List.take_succ_cons, List.sum_cons]
        push_cast
        ring
      rw [hoff]

/-- C10: `readerAtToReader.Read` always advances the cursor by the
requested buffer length, even when the underlying `ReadAt` returned fewer
bytes; the bytes it delivers are exactly the (possibly short) `ReadAt`
result at the old position, and every later read delivers bytes starting at
offset (old position + requested length) plus the later requests — so the
gap between (old position + bytes actually read) and (old position +
requested length) is never delivered. -/
theorem readerAtToReader_short_read_skips (blob : List Nat) (pos : Int) (l : Nat) :
    ((readerAtToReaderRead blob pos l).2 = pos + (l : Int)) ∧
    ((readerAtToReaderRead blob pos l).1 = readAt blob pos l) ∧
    (∀ (ls : List Nat) (i : Nat),
      ((readerAtToReaderRun blob (pos + (l : Int)) ls).1).get? i =
        (ls.get? i).map
          (fun m => readAt blob (pos + (l : Int) + ((ls.take i).sum : Int)) m)) :=
  ⟨rfl, rfl, fun ls i => readerAtToReaderRun_get? blob ls (pos + (l : Int)) i⟩

end Conv
